import Mathlib

set_option maxRecDepth 20000

/-!
# Verification of the rewards-collector core

A shallow embedding of the reward-collection pipeline: the bond-type reward
adjustment (`adjust_reward` in `reward_utils.py` and `invoice.py`), the
principal computation (`get_bonded_principal`), the parquet ledger merge
(`ParquetWriter.save_rewards`), withdrawal processing and exit classification
(`RewardProcessor.process_withdrawals`, `BeaconchainAPI`), the validator CSV
loader (`ValidatorReader.load_validators`), the epoch collection and backfill
loop (`RewardsCollector.collect_rewards`, `RewardsBackfiller.run`), and the
aggregation routing (`fetch_data` in `src/invoice.py`).

Machine integers are modelled as `Int`/`Nat`.  CPython `float` values that the
reward adjustment multiplies and adds are modelled exactly as dyadic rationals
(`Dy`), with IEEE-754 round-to-nearest-even applied after every conversion and
arithmetic operation, exactly as the hardware does; the model covers the normal
double range (no overflow/subnormal handling), which contains every value this
program computes.
-/

/-! ## Dyadic model of IEEE-754 binary64 arithmetic -/

/-- A dyadic rational `man * 2 ^ exp`.  Every finite IEEE-754 double is of this
form, and products and sums of dyadics are again dyadic, so double arithmetic
can be modelled exactly: perform the exact dyadic operation, then round the
result back to 53 significant bits. -/
structure Dy where
  man : ℤ
  exp : ℤ
  deriving DecidableEq

/-- Fuel-driven bit length of a natural number (number of binary digits;
`bitLenFuel fuel n` is exact for `n < 2 ^ fuel`).  Structural recursion is used
so that the kernel can evaluate it. -/
def bitLenFuel : ℕ → ℕ → ℕ
  | 0, _ => 0
  | _, 0 => 0
  | fuel + 1, n => if n ≤ 1 then 1 else bitLenFuel fuel (n / 2) + 1

/-- Bit length of a natural number, exact below `2 ^ 4096` (far beyond every
quantity in this development). -/
def bitLen (n : ℕ) : ℕ := bitLenFuel 4096 n

/-- The exact value of `d` is `d.man * 2 ^ d.exp`; `⌊log₂ |value|⌋` equals
`bitLen |man| - 1 + exp` for a nonzero mantissa. -/
def Dy.ofInt (n : ℤ) : Dy := ⟨n, 0⟩

/-- Exact product of two dyadics. -/
def Dy.mul (a b : Dy) : Dy := ⟨a.man * b.man, a.exp + b.exp⟩

/-- Exact sum of two dyadics (align to the smaller exponent). -/
def Dy.add (a b : Dy) : Dy :=
  if a.exp ≤ b.exp then
    ⟨a.man + b.man * 2 ^ (b.exp - a.exp).toNat, a.exp⟩
  else
    ⟨a.man * 2 ^ (a.exp - b.exp).toNat + b.man, b.exp⟩

/-- Round a dyadic to 53 significant bits, round-to-nearest with ties to even:
the rounding every IEEE-754 binary64 operation applies to its exact result.
If the value already fits (the rounding unit `2 ^ (⌊log₂ |x|⌋ - 52)` is at most
`2 ^ exp`), the value is returned unchanged. -/
def Dy.round53 (x : Dy) : Dy :=
  if x.man = 0 then ⟨0, 0⟩
  else
    let n : ℕ := x.man.natAbs
    let s : ℤ := if 0 ≤ x.man then 1 else -1
    let L : ℤ := (bitLen n : ℤ) - 1 + x.exp
    let k : ℤ := L - 52 - x.exp
    if k ≤ 0 then x
    else
      let kn := k.toNat
      let q := n / 2 ^ kn
      let r := n % 2 ^ kn
      let half := 2 ^ (kn - 1)
      let m := if half < r then q + 1
               else if r < half then q
               else if q % 2 = 0 then q else q + 1
      ⟨s * (m : ℤ), x.exp + k⟩

/-- CPython `int(f)` on a float: truncation toward zero (`Int.div` is
T-division). -/
def Dy.truncToInt (x : Dy) : ℤ :=
  if 0 ≤ x.exp then x.man * 2 ^ x.exp.toNat
  else Int.tdiv x.man (2 ^ (-x.exp).toNat)

/-- The IEEE-754 binary64 value of the literal `0.14`:
`5044031582654956 / 2 ^ 55` (already rounded, so a `Dy.round53` fixpoint). -/
def d14 : Dy := ⟨5044031582654956, -55⟩

/-- The IEEE-754 binary64 value of the literal `0.15`:
`5404319552844595 / 2 ^ 55`. -/
def d15 : Dy := ⟨5404319552844595, -55⟩

/-! ## Python values and `int(float(x))` parsing -/

/-- The Python values passed as `bond_type` / `validator_type`: integers,
strings (the CSV stores them as text), or `None` (missing data). -/
inductive PyBond where
  | int (n : ℤ)
  | str (s : String)
  | noneV
  deriving DecidableEq

/-- The exceptions `int(float(x))` can raise. -/
inductive PyErr where
  | valueError
  | typeError
  | overflowError
  deriving DecidableEq

deriving instance DecidableEq for Except

/-- Classification of `float(s)` for a string: a finite literal's exact
rational value (numerator and positive denominator), infinity, or NaN. -/
inductive PyFloatVal where
  | fin (num : ℤ) (den : ℕ)
  | inf
  | nan
  deriving DecidableEq

/-- Strip leading and trailing whitespace from a character list (CPython
`float()` and `str.strip()` ignore surrounding whitespace). -/
def trimChars (cs : List Char) : List Char :=
  ((cs.dropWhile Char.isWhitespace).reverse.dropWhile Char.isWhitespace).reverse

/-- Worker validating one digit group of a CPython numeric literal and
returning its digits with the underscore separators removed: every
underscore must sit between two digits. -/
def udigitsGo : List Char → List Char → Option (List Char)
  | [], acc => some acc.reverse
  | ['_'], _ => none
  | '_' :: d :: rest, acc =>
    if d.isDigit then udigitsGo rest (d :: acc) else none
  | c :: rest, acc => if c.isDigit then udigitsGo rest (c :: acc) else none

/-- A digit group must be nonempty and start with a digit. -/
def udigits? : List Char → Option (List Char)
  | [] => none
  | c :: rest => if c.isDigit then udigitsGo rest [c] else none

/-- Numeric value of a digit list. -/
def digitsToNat (cs : List Char) : ℕ :=
  cs.foldl (fun n c => n * 10 + (c.toNat - 48)) 0

/-- Split a character list at the first occurrence of `sep`. -/
def splitOnce (sep : Char) : List Char → List Char × Option (List Char)
  | [] => ([], none)
  | c :: rest =>
    if c = sep then ([], some rest)
    else
      let ab := splitOnce sep rest
      (c :: ab.1, ab.2)

/-- The exact rational value of a finite literal with digit value `d`, `k`
fractional digits and decimal exponent `ex`:
`(-1)^neg * d * 10 ^ (ex - k)`. -/
def mkFinVal (neg : Bool) (d k : ℕ) (ex : ℤ) : PyFloatVal :=
  let sign : ℤ := if neg then -1 else 1
  if (k : ℤ) ≤ ex then
    .fin (sign * ((d * 10 ^ (ex - (k : ℤ)).toNat : ℕ) : ℤ)) 1
  else .fin (sign * (d : ℤ)) (10 ^ ((k : ℤ) - ex).toNat)

/-- Parse the number form of a CPython float literal: a mantissa of digit
groups around an optional decimal point (at least one digit overall),
followed by an optional decimal exponent with optional sign. -/
def parseFloatNumber (neg : Bool) (body : List Char) : Option PyFloatVal :=
  let me := splitOnce 'e' body
  let md := splitOnce '.' me.1
  let ipOpt : Option (List Char) :=
    if md.1.isEmpty then some [] else udigits? md.1
  let fpOpt : Option (List Char) :=
    match md.2 with
    | none => some []
    | some fpRaw => if fpRaw.isEmpty then some [] else udigits? fpRaw
  match ipOpt, fpOpt with
  | some ip, some fp =>
    if ip.isEmpty ∧ fp.isEmpty then none
    else
      let exOpt : Option ℤ :=
        match me.2 with
        | none => some 0
        | some ec =>
          let se : Bool × List Char :=
            match ec with
            | '-' :: r => (true, r)
            | '+' :: r => (false, r)
            | r => (false, r)
          match udigits? se.2 with
          | none => none
          | some ds => some ((if se.1 then -1 else 1) * (digitsToNat ds : ℤ))
      match exOpt with
      | none => none
      | some ex => some (mkFinVal neg (digitsToNat (ip ++ fp)) fp.length ex)
  | _, _ => none

/-- Model of CPython `float(s)` on strings: surrounding whitespace is
ignored; an optional sign precedes either an infinity or NaN spelling or a
numeric literal (ASCII digit groups with underscore separators, optional
decimal point, optional decimal exponent).  A finite literal is returned as
its exact rational value; `none` means `float()` raises `ValueError`.
Non-ASCII digit forms, which never occur in this system's data, are not
modelled. -/
def parsePyFloatString (s : String) : Option PyFloatVal :=
  let low := (trimChars s.data).map Char.toLower
  let sb : Bool × List Char :=
    match low with
    | '-' :: rest => (true, rest)
    | '+' :: rest => (false, rest)
    | rest => (false, rest)
  if sb.2 = ['i', 'n', 'f'] ∨
     sb.2 = ['i', 'n', 'f', 'i', 'n', 'i', 't', 'y'] then some .inf
  else if sb.2 = ['n', 'a', 'n'] then some .nan
  else parseFloatNumber sb.1 sb.2

/-- Whether `2 ^ e ≤ p / q` for positive `p`, `q` and an integer exponent. -/
def ratPow2Le (e : ℤ) (p q : ℕ) : Bool :=
  if 0 ≤ e then decide (2 ^ e.toNat * q ≤ p) else decide (q ≤ p * 2 ^ (-e).toNat)

/-- `⌊log₂ (p / q)⌋` for positive `p`, `q`: the bit-length estimate is off by
at most one, corrected by one comparison. -/
def floorLog2Rat (p q : ℕ) : ℤ :=
  let e0 : ℤ := (bitLen p : ℤ) - (bitLen q : ℤ)
  if ratPow2Le e0 p q then e0 else e0 - 1

/-- Nearest binary64 (round-to-nearest, ties to even, exponent unbounded) of
the positive rational `p / q`: scale to 53 significant bits and round the
remainder. -/
def roundDoubleRat (p q : ℕ) : Dy :=
  let e := floorLog2Rat p q
  let shift : ℤ := 52 - e
  let num := if 0 ≤ shift then p * 2 ^ shift.toNat else p
  let den := if 0 ≤ shift then q else q * 2 ^ (-shift).toNat
  let m0 := num / den
  let r := num % den
  let m := if den < 2 * r then m0 + 1
           else if 2 * r < den then m0
           else if m0 % 2 = 0 then m0 else m0 + 1
  ⟨(m : ℤ), e - 52⟩

/-- IEEE-754 overflow test for a positive rounded value: the conversion
yields infinity iff the rounded magnitude reaches `2 ^ 1024`, i.e. iff
`⌊log₂ value⌋ = bitLen man - 1 + exp` is at least 1024. -/
def dyOverflow (d : Dy) : Bool :=
  decide (1024 ≤ (bitLen d.man.natAbs : ℤ) - 1 + d.exp)

/-- `float(s)` as a binary64 for a finite literal of exact value
`num / den`: correctly rounded to nearest (as CPython's string conversion
is), `none` when the magnitude overflows to infinity. -/
def pyFloatOfRat (num : ℤ) (den : ℕ) : Option Dy :=
  if num = 0 then some ⟨0, 0⟩
  else
    let d := roundDoubleRat num.natAbs den
    if dyOverflow d then none
    else some (if 0 ≤ num then d else ⟨-d.man, d.exp⟩)

/-- Model of CPython `int(float(x))`: `float(None)` raises `TypeError`; an
unparsable string raises `ValueError`; a string literal is parsed, correctly
rounded to binary64 and truncated toward zero — so `int(float("10.5")) = 10`;
an infinite value (spelled `inf` or overflowing, e.g. `"1e400"`) makes
`int()` raise `OverflowError`; NaN makes it raise `ValueError`.  Integer
inputs convert exactly (bond types in this system are far below `2 ^ 53`,
where float conversion is exact). -/
def pyParseBond : PyBond → Except PyErr ℤ
  | .int n => .ok n
  | .noneV => .error .typeError
  | .str s =>
    match parsePyFloatString s with
    | none => .error .valueError
    | some .nan => .error .valueError
    | some .inf => .error .overflowError
    | some (.fin num den) =>
      match pyFloatOfRat num den with
      | none => .error .overflowError
      | some dy => .ok dy.truncToInt

/-! ## `adjust_reward` (reward_utils.py:5-39 and invoice.py:13-41) -/

/-- One LEB branch of `adjust_reward`: Python computes
`int(bonded + borrowed * c)` where `bonded = amount // divisor` (floor
division), `borrowed = amount - bonded`, and `c` is a float literal.  Each
float operation rounds its exact result to binary64. -/
def lebAdjust (amount divisor : ℤ) (c : Dy) : ℤ :=
  let bonded := Int.fdiv amount divisor
  let borrowed := amount - bonded
  let product := Dy.round53 (Dy.mul (Dy.round53 (Dy.ofInt borrowed)) c)
  let total := Dy.round53 (Dy.add (Dy.round53 (Dy.ofInt bonded)) product)
  total.truncToInt

/-- The branch structure shared by both `adjust_reward` variants, applied once
the bond type has parsed to an integer. -/
def adjustParsed (amount t : ℤ) : ℤ :=
  if 8 ≤ t ∧ t < 15 then lebAdjust amount 4 d14
  else if 16 ≤ t ∧ t < 17 then lebAdjust amount 2 d15
  else amount

/-- `adjust_reward` from `src/invoicing/reward_utils.py` (lines 5-39): the
parse is wrapped in `except (ValueError, TypeError): return amount`; an
`OverflowError` (infinite bond type) is not caught and propagates. -/
def adjustRewardUtils (amount : ℤ) (bond : PyBond) : Except PyErr ℤ :=
  match pyParseBond bond with
  | .error .valueError => .ok amount
  | .error .typeError => .ok amount
  | .error e => .error e
  | .ok t => .ok (adjustParsed amount t)

/-- `adjust_reward` from `src/invoicing/invoice.py` (lines 13-41): identical
arithmetic, but the `except` clause catches only `ValueError`, so a `None`
bond type (`TypeError`) propagates. -/
def adjustRewardInvoice (amount : ℤ) (bond : PyBond) : Except PyErr ℤ :=
  match pyParseBond bond with
  | .error .valueError => .ok amount
  | .error e => .error e
  | .ok t => .ok (adjustParsed amount t)

/-- The claim's closed form, stated from the claim's own words for comparison
with the source translation: `floor(amount//4 + (amount - amount//4) * 0.14)`
with `0.14` and `0.15` read as exact rationals and `floor` as the mathematical
floor. -/
def adjustRewardClaimFormula (amount t : ℤ) : ℤ :=
  if 8 ≤ t ∧ t < 15 then
    let bonded := Int.fdiv amount 4
    let borrowed := amount - bonded
    bonded + Int.fdiv (borrowed * 14) 100
  else if 16 ≤ t ∧ t < 17 then
    let bonded := Int.fdiv amount 2
    let borrowed := amount - bonded
    bonded + Int.fdiv (borrowed * 15) 100
  else amount

/-- Modelled from the spec: `get_bonded_principal` is imported by
`src/src/invoice.py` and `src/src/generate_invoice.py` from a `reward_utils`
module that is not present under `src/` (only its callers are).  Spec 4.5:
bond type in `[8,15)` yields `amount // 4`, in `[16,17)` yields `amount // 2`,
otherwise `amount` unchanged (parsing mirrors the sibling `adjust_reward`). -/
def get_bonded_principal (amount : ℤ) (bond : PyBond) : ℤ :=
  match pyParseBond bond with
  | .error _ => amount
  | .ok t =>
    if 8 ≤ t ∧ t < 15 then Int.fdiv amount 4
    else if 16 ≤ t ∧ t < 17 then Int.fdiv amount 2
    else amount

/-! ## Ledger records and `ParquetWriter.save_rewards`
(rewards_collector.py:397-481) -/

/-- One row of the master parquet ledger, fixed schema
`record_type, validator_index, amount, epoch, datetime, validator_type, node,
minipool, mev_source, exec_block_number, is_exit`
(rewards_collector.py:420-432). -/
structure RewardRecord where
  record_type : String
  validator_index : ℤ
  amount : ℤ
  epoch : ℤ
  datetime : Option ℤ
  validator_type : String
  node : String
  minipool : String
  mev_source : Option String
  exec_block_number : Option ℤ
  is_exit : Bool
  deriving DecidableEq

/-- The deduplication key `['epoch', 'validator_index', 'record_type',
'amount']` (rewards_collector.py:457). -/
def recKey (r : RewardRecord) : ℤ × ℤ × String × ℤ :=
  (r.epoch, r.validator_index, r.record_type, r.amount)

/-- Predicate matching records with the same key as `r`. -/
def keyPred (r : RewardRecord) : RewardRecord → Bool :=
  fun x => decide (recKey x = recKey r)

/-- Worker for keep-first deduplication: `seen` holds the keys of records
already emitted. -/
def dedupKeysGo (seen : List (ℤ × ℤ × String × ℤ)) :
    List RewardRecord → List RewardRecord
  | [] => []
  | r :: rs =>
    if recKey r ∈ seen then dedupKeysGo seen rs
    else r :: dedupKeysGo (recKey r :: seen) rs

/-- `DataFrame.drop_duplicates(subset=key_columns, keep='first')`
(rewards_collector.py:459). -/
def dedupByKey (l : List RewardRecord) : List RewardRecord :=
  dedupKeysGo [] l

/-- Lexicographic order on character lists: the order Python uses to compare
strings (by code point), hence the order of the `record_type` sort column. -/
def charListLt : List Char → List Char → Bool
  | [], [] => false
  | [], _ :: _ => true
  | _ :: _, [] => false
  | a :: as, b :: bs => if a < b then true else if b < a then false else charListLt as bs

/-- The sort order `['epoch', 'record_type', 'validator_index']` of
`sort_values` (rewards_collector.py:466), lexicographic. -/
def sortLE (a b : RewardRecord) : Bool :=
  decide (a.epoch < b.epoch) ||
    (decide (a.epoch = b.epoch) &&
      (charListLt a.record_type.data b.record_type.data ||
        (a.record_type == b.record_type &&
          decide (a.validator_index ≤ b.validator_index))))

/-- `sort_values(['epoch', 'record_type', 'validator_index'])`, modelled with
a deterministic (stable) sort; the theorems below are stated up to permutation
so that only the reordering, never a tie-breaking choice, matters. -/
def sortRecords (l : List RewardRecord) : List RewardRecord :=
  l.insertionSort (fun a b => sortLE a b = true)

/-- `ParquetWriter.save_rewards(withdrawals, proposals, epoch)`
(rewards_collector.py:404-471).  The ledger is `none` when
`rewards_master.parquet` does not exist, `some existing` otherwise; the result
is the ledger content after the call.  Mirrors the source: combine the two
event lists; if nothing to save, return without touching the file; if the file
exists, drop existing rows of the given epoch, append the new rows, deduplicate
keep-first on the key, sort and write; on the first write, persist the new rows
as they are. -/
def saveRewards (ledger : Option (List RewardRecord))
    (withdrawals proposals : List RewardRecord) (epoch : ℤ) :
    Option (List RewardRecord) :=
  let all_records := withdrawals ++ proposals
  if all_records.isEmpty then ledger
  else
    match ledger with
    | none => some all_records
    | some existing =>
      let survivors := existing.filter (fun r => decide (r.epoch ≠ epoch))
      let combined := survivors ++ all_records
      some (sortRecords (dedupByKey combined))

/-- At most one record per `(epoch, validator_index, record_type, amount)`
key: the ledger uniqueness invariant of spec section 3. -/
def KeyNodup (l : List RewardRecord) : Prop :=
  l.Pairwise (fun a b => recKey a ≠ recKey b)

/-! ## Validator registry (rewards_collector.py:33-88) -/

/-- One validator row: `index, pubkey, type, node, minipool`
(rewards_collector.py:50-56). -/
structure ValidatorRow where
  index : String
  pubkey : String
  vtype : String
  node : String
  minipool : String
  deriving DecidableEq

/-- `str.strip()`: drop leading and trailing whitespace. -/
def pyStrip (s : String) : String :=
  String.mk (trimChars s.data)

/-- `ValidatorReader.load_validators` (rewards_collector.py:40-66) on the
parsed CSV rows (each row a list of cell strings, header row included, which
the code skips with `next(reader)`).  A row is kept only when it has at least
4 cells and a nonempty first cell; every other row is silently skipped.  The
function raises nothing row-wise; only file-level errors (missing file)
propagate, which are outside this model. -/
def loadValidators (rows : List (List String)) : List ValidatorRow :=
  (rows.drop 1).filterMap (fun row =>
    if 4 ≤ row.length ∧ pyStrip (row.headD "") ≠ "" then
      some { index := pyStrip (row.getD 0 "")
             pubkey := pyStrip (row.getD 1 "")
             vtype := pyStrip (row.getD 2 "")
             node := pyStrip (row.getD 3 "")
             minipool := pyStrip (row.getD 4 "") }
    else none)

/-- A row that `load_validators` keeps (for the characterization theorem). -/
def goodRow (row : List String) : Bool :=
  decide (4 ≤ row.length ∧ pyStrip (row.headD "") ≠ "")

/-- The record built from a kept row. -/
def rowToValidator (row : List String) : ValidatorRow :=
  { index := pyStrip (row.getD 0 "")
    pubkey := pyStrip (row.getD 1 "")
    vtype := pyStrip (row.getD 2 "")
    node := pyStrip (row.getD 3 "")
    minipool := pyStrip (row.getD 4 "") }

/-- `ValidatorReader.get_validator_by_index` (rewards_collector.py:83-88):
linear scan, first match. -/
def getValidatorByIndex (validators : List ValidatorRow) (idx : String) :
    Option ValidatorRow :=
  validators.find? (fun v => v.index == idx)

/-! ## Exit classification and withdrawal processing
(rewards_collector.py:197-340) -/

/-- The statuses that mark a validator as exited
(`BeaconchainAPI.is_validator_exited`, rewards_collector.py:255-271). -/
def exitedStatuses : List String :=
  ["exited_unslashed", "exited_slashed", "withdrawal_possible",
   "withdrawal_done"]

/-- `is_validator_exited(status)`: membership in the exited-status set. -/
def isValidatorExited (status : String) : Bool :=
  exitedStatuses.contains status

/-- One entry of the beacon node's `validators` response (index and status,
rewards_collector.py:233-237). -/
structure StatusEntry where
  index : ℤ
  status : String
  deriving DecidableEq

/-- `BeaconchainAPI.get_validator_statuses(indices)`
(rewards_collector.py:197-253): a batch POST whose transport outcome is the
`response` argument; an empty `indices` list short-circuits to an empty map;
a transport failure (`requests.RequestException`) is caught and an empty map
returned; a successful response is flattened into `str(index) -> status`
pairs. -/
def getValidatorStatuses (indices : List String)
    (response : Except Unit (List StatusEntry)) : List (String × String) :=
  if indices.isEmpty then []
  else
    match response with
    | .error _ => []
    | .ok entries => entries.map (fun e => (toString e.index, e.status))

/-- `dict.get(index, '')` on the status map. -/
def lookupStatus (statuses : List (String × String)) (idx : String) : String :=
  match statuses.find? (fun kv => kv.1 == idx) with
  | some kv => kv.2
  | none => ""

/-- `dict` membership on the status map (used to state the absent-key case). -/
def statusLookup? (statuses : List (String × String)) (idx : String) :
    Option String :=
  (statuses.find? (fun kv => kv.1 == idx)).map (fun kv => kv.2)

/-- One item of the withdrawal API payload (rewards_collector.py:310-324):
`validatorindex`, `amount` (gwei) and the item's own `epoch`, which may be any
epoch of the 100-epoch response window. -/
structure WithdrawalItem where
  validatorindex : ℤ
  amount : ℤ
  epoch : ℤ
  deriving DecidableEq

/-- `RewardProcessor.process_withdrawals(withdrawals_data, epoch,
validator_statuses)` (rewards_collector.py:281-340).  The `epoch` argument
feeds only the epoch-slots timestamp lookup, whose resolved best-effort result
is the `timestamp` argument here (it is `none` when the lookup fails, the
source's `except` path).  Every payload item yields exactly one record; the
record's `epoch` field is the item's own epoch; `is_exit` is the exit
classification of the validator's status under `dict.get(index, '')`. -/
def processWithdrawals (validators : List ValidatorRow) (epoch : ℤ)
    (data : List WithdrawalItem) (timestamp : Option ℤ)
    (statuses : List (String × String)) : List RewardRecord :=
  data.map (fun w =>
    let vidxStr := toString w.validatorindex
    let vinfo := getValidatorByIndex validators vidxStr
    let status := lookupStatus statuses vidxStr
    { record_type := "withdrawal"
      validator_index := w.validatorindex
      amount := w.amount
      epoch := w.epoch
      datetime := timestamp
      validator_type := ((vinfo.map (fun v => v.vtype)).getD "")
      node := ((vinfo.map (fun v => v.node)).getD "")
      minipool := ((vinfo.map (fun v => v.minipool)).getD "")
      mev_source := none
      exec_block_number := none
      is_exit := isValidatorExited status })

/-! ## Withdrawal request construction (rewards_collector.py:117-139) -/

/-- The HTTP request `get_withdrawals` issues: URL and the `epoch` query
parameter. -/
structure ApiRequest where
  url : String
  epochParam : ℤ
  deriving DecidableEq

/-- `BeaconchainAPI.get_withdrawals(validator_indices, epoch)`
(rewards_collector.py:117-139): the remote API returns the last 100 epochs
from the queried epoch, so the client queries `epoch + 99` to cover
`[epoch, epoch + 99]`. -/
def getWithdrawalsRequest (validator_indices : List String) (epoch : ℤ) :
    ApiRequest :=
  let validators_str := String.intercalate "," validator_indices
  let query_epoch := epoch + 99
  { url := "https://beaconcha.in/api/v1/validator/" ++ validators_str ++
      "/withdrawals"
    epochParam := query_epoch }

/-! ## Collection cycle and backfill loop
(rewards_collector.py:494-537, rewards_backfiller.py:84-124) -/

/-- Outcome of one chunk's loop body in `collect_rewards`
(rewards_collector.py:507-528).  The body accumulates the chunk's processed
withdrawals into `all_withdrawals` (line 519) before it fetches and processes
proposals (lines 522-524), so an exception inside the chunk's `try` strikes
either before the withdrawals are accumulated (`failedEarly`: the status
query, withdrawal fetch or withdrawal processing raised — the chunk
contributes nothing) or after (`failedAfterWithdrawals`: the proposal fetch
or processing raised, with the chunk's withdrawals already accumulated);
`ok` is a chunk whose whole body completed.  In every case the `except`
clause catches the exception, logs and continues with the next chunk. -/
inductive ChunkOutcome where
  | failedEarly
  | failedAfterWithdrawals (ws : List RewardRecord)
  | ok (ws ps : List RewardRecord)
  deriving DecidableEq

/-- The records a chunk outcome has left in `all_withdrawals`. -/
def chunkWithdrawals : ChunkOutcome → List RewardRecord
  | .failedEarly => []
  | .failedAfterWithdrawals ws => ws
  | .ok ws _ => ws

/-- The records a chunk outcome has left in `all_proposals`. -/
def chunkProposals : ChunkOutcome → List RewardRecord
  | .ok _ ps => ps
  | _ => []

/-- Concatenated withdrawal contributions of a chunk sequence. -/
def chunksWithdrawals (results : List ChunkOutcome) : List RewardRecord :=
  results.foldr (fun c acc => chunkWithdrawals c ++ acc) []

/-- Concatenated proposal contributions of a chunk sequence. -/
def chunksProposals (results : List ChunkOutcome) : List RewardRecord :=
  results.foldr (fun c acc => chunkProposals c ++ acc) []

/-- `RewardsCollector.collect_rewards(epoch)` (rewards_collector.py:494-537):
the chunk loop accumulates each chunk's contribution (every chunk exception
having been caught inside the loop), the accumulated records are saved with
`save_rewards`, and the counts are returned. -/
def collectRewards (ledger : Option (List RewardRecord)) (epoch : ℤ)
    (chunkResults : List ChunkOutcome) :
    Option (List RewardRecord) × ℕ × ℕ :=
  let gathered := chunkResults.foldl
    (fun acc res =>
      (acc.1 ++ chunkWithdrawals res, acc.2 ++ chunkProposals res))
    ([], [])
  (saveRewards ledger gathered.1 gathered.2 epoch,
   gathered.1.length, gathered.2.length)

/-- Outcome of one iteration of `RewardsBackfiller.run`'s `while` loop
(rewards_backfiller.py:84-124). -/
inductive BackfillStep where
  | finished
  | advance (next : ℤ)
  | retry (next : ℤ)
  deriving DecidableEq

/-- One iteration of the backfill loop: if `next_epoch > current_epoch > 0`
the backfill is complete; otherwise the epoch is collected — a successful
collection advances `next_epoch` by the interval, while an exception escaping
`collect_rewards` is caught by the loop's `except`, which logs, sleeps the
fixed delay and leaves `next_epoch` unchanged (the same epoch is retried). -/
def backfillStep (next_epoch interval current_epoch : ℤ)
    (collectOutcome : Except Unit (ℕ × ℕ)) : BackfillStep :=
  if next_epoch > current_epoch ∧ current_epoch > 0 then .finished
  else
    match collectOutcome with
    | .ok _ => .advance (next_epoch + interval)
    | .error _ => .retry next_epoch

/-! ## Aggregation routing (`fetch_data`, src/src/invoice.py:7-78) -/

/-- The per-event dict `{'amount', 'epoch', 'node', 'type'}` built by
`fetch_data` (src/src/invoice.py:29-48). -/
structure AggRecord where
  amount : ℤ
  epoch : ℤ
  node : String
  vtype : String
  deriving DecidableEq

/-- Minimum amount for an exit: 8 ETH in gwei (src/src/invoice.py:39). -/
def exitThresholdGwei : ℤ := 8 * 10 ^ 9

/-- Principal cap: 32 ETH in gwei (src/src/invoice.py:61). -/
def principalCapGwei : ℤ := 32 * 10 ^ 9

/-- Projection of a ledger row to the aggregation dict. -/
def toAggRecord (r : RewardRecord) : AggRecord :=
  { amount := r.amount, epoch := r.epoch, node := r.node,
    vtype := r.validator_type }

/-- The exit-selection test (src/src/invoice.py:52-56): with the `is_exit`
column present, `is_exit == True and amount >= 8 ETH`; without it, the legacy
fallback `amount > 32 ETH`. -/
def isExitSelected (hasFlag : Bool) (r : RewardRecord) : Bool :=
  if hasFlag then r.is_exit && decide (exitThresholdGwei ≤ r.amount)
  else decide (principalCapGwei < r.amount)

/-- The withdrawal loop of `fetch_data` (src/src/invoice.py:42-76), returning
`(withdrawals, exits)` in iteration order: a selected exit contributes one
exit record capped at 32 ETH, plus one excess withdrawal record when the
amount exceeds the cap; an unselected row passes through whole. -/
def routeWithdrawals (hasFlag : Bool) :
    List RewardRecord → List AggRecord × List AggRecord
  | [] => ([], [])
  | row :: rest =>
    let (ws, exs) := routeWithdrawals hasFlag rest
    let wrec := toAggRecord row
    if isExitSelected hasFlag row then
      let exitRec := { wrec with amount := min row.amount principalCapGwei }
      let excess := row.amount - principalCapGwei
      if 0 < excess then
        ({ wrec with amount := excess } :: ws, exitRec :: exs)
      else (ws, exitRec :: exs)
    else (wrec :: ws, exs)

/-- Epoch-range filter of `fetch_data` (src/src/invoice.py:16). -/
def inEpochRange (fromBlock toBlock : ℤ) (r : RewardRecord) : Bool :=
  decide (fromBlock ≤ r.epoch) && decide (r.epoch ≤ toBlock)

/-- The withdrawal rows `fetch_data` iterates (src/src/invoice.py:16-19). -/
def withdrawalRows (ledger : List RewardRecord) (fromBlock toBlock : ℤ) :
    List RewardRecord :=
  ledger.filter
    (fun r => inEpochRange fromBlock toBlock r && r.record_type == "withdrawal")

/-- The proposal rows of the range (src/src/invoice.py:20, 28-34). -/
def proposalRows (ledger : List RewardRecord) (fromBlock toBlock : ℤ) :
    List RewardRecord :=
  ledger.filter
    (fun r => inEpochRange fromBlock toBlock r && r.record_type == "proposal")

/-- `fetch_data(fromBlock, toBlock, parquet_file)` (src/src/invoice.py:7-78)
on the loaded ledger: returns `(proposals, withdrawals, exits)`.  `hasFlag`
models `'is_exit' in withdrawals_df.columns`. -/
def fetchData (ledger : List RewardRecord) (fromBlock toBlock : ℤ)
    (hasFlag : Bool) : List AggRecord × List AggRecord × List AggRecord :=
  let proposals := (proposalRows ledger fromBlock toBlock).map toAggRecord
  let routed := routeWithdrawals hasFlag (withdrawalRows ledger fromBlock toBlock)
  (proposals, routed.1, routed.2)

/-- The amount adjustment `aggregate_data` applies to every exit record
(src/src/invoice.py:127): `get_bonded_principal(amount, type)` row by row
(the subsequent gwei→ETH float division and summation are outside the claims
and not modelled). -/
def aggregateExitAmounts (exits : List AggRecord) : List ℤ :=
  exits.map (fun r => get_bonded_principal r.amount (.str r.vtype))

/-- A concrete ledger record for instantiating the theorems below. -/
def sampleRecord (rt : String) (vi amt ep : ℤ) (ex : Bool) : RewardRecord :=
  { record_type := rt, validator_index := vi, amount := amt, epoch := ep,
    datetime := none, validator_type := "", node := "", minipool := "",
    mev_source := none, exec_block_number := none, is_exit := ex }

/-! ## Helper lemmas on keep-first deduplication -/

lemma keyPred_eq_of_key_eq {r s : RewardRecord} (h : recKey s = recKey r) :
    keyPred s = keyPred r := by
  funext x
  simp [keyPred, h]

lemma mem_dedupKeysGo {r : RewardRecord} :
    ∀ (l : List RewardRecord) (seen : List (ℤ × ℤ × String × ℤ)),
      r ∈ dedupKeysGo seen l ↔
        recKey r ∉ seen ∧ l.find? (keyPred r) = some r := by
  intro l
  induction l with
  | nil => intro seen; simp [dedupKeysGo]
  | cons x xs ih =>
    intro seen
    by_cases hk : recKey x = recKey r
    · have hfind : List.find? (keyPred r) (x :: xs) = some x :=
        List.find?_cons_of_pos xs (by simp [keyPred, hk])
      by_cases hx : recKey x ∈ seen
      · have hrs : recKey r ∈ seen := hk ▸ hx
        simp only [dedupKeysGo, if_pos hx, hfind, ih seen]
        constructor
        · rintro ⟨h1, _⟩; exact absurd hrs h1
        · rintro ⟨h1, _⟩; exact absurd hrs h1
      · simp only [dedupKeysGo, if_neg hx, hfind, List.mem_cons, ih]
        constructor
        · rintro (rfl | ⟨hns, hf⟩)
          · exact ⟨hk ▸ hx, rfl⟩
          · exact absurd (Or.inl hk.symm) hns
        · rintro ⟨hnotin, hxr⟩
          have hx_eq : x = r := by injection hxr
          exact Or.inl hx_eq.symm
    · have hfind : List.find? (keyPred r) (x :: xs) =
          List.find? (keyPred r) xs :=
        List.find?_cons_of_neg xs (by simp [keyPred, hk])
      by_cases hx : recKey x ∈ seen
      · simp only [dedupKeysGo, if_pos hx, hfind, ih seen]
      · simp only [dedupKeysGo, if_neg hx, hfind, List.mem_cons, ih]
        constructor
        · rintro (rfl | ⟨hns, hf⟩)
          · exact absurd rfl hk
          · exact ⟨fun hmem => hns (Or.inr hmem), hf⟩
        · rintro ⟨hns, hf⟩
          refine Or.inr ⟨?_, hf⟩
          rintro (h | h)
          · exact hk h.symm
          · exact hns h

lemma mem_dedupByKey {r : RewardRecord} {l : List RewardRecord} :
    r ∈ dedupByKey l ↔ l.find? (keyPred r) = some r := by
  simp [dedupByKey, mem_dedupKeysGo]

lemma keyNodup_dedupKeysGo :
    ∀ (l : List RewardRecord) (seen : List (ℤ × ℤ × String × ℤ)),
      KeyNodup (dedupKeysGo seen l) := by
  intro l
  induction l with
  | nil => intro seen; simp [dedupKeysGo, KeyNodup]
  | cons x xs ih =>
    intro seen
    by_cases hx : recKey x ∈ seen
    · simpa [dedupKeysGo, if_pos hx] using ih seen
    · rw [show dedupKeysGo seen (x :: xs) =
          x :: dedupKeysGo (recKey x :: seen) xs by
            simp [dedupKeysGo, if_neg hx]]
      refine List.Pairwise.cons ?_ (ih _)
      intro y hy
      have hmem := (mem_dedupKeysGo _ _).mp hy
      intro hkey
      exact hmem.1 (by simp [← hkey])

lemma keyNodup_dedupByKey (l : List RewardRecord) : KeyNodup (dedupByKey l) :=
  keyNodup_dedupKeysGo l []

lemma find?_keyPred_of_keyNodup {r : RewardRecord} :
    ∀ {l : List RewardRecord}, KeyNodup l → r ∈ l →
      l.find? (keyPred r) = some r := by
  intro l
  induction l with
  | nil => intro _ h; simp at h
  | cons x xs ih =>
    intro hnd hmem
    rcases List.mem_cons.mp hmem with rfl | hmem
    · exact List.find?_cons_of_pos xs (by simp [keyPred])
    · have hne : recKey x ≠ recKey r :=
        (List.pairwise_cons.mp hnd).1 r hmem
      rw [List.find?_cons_of_neg xs (by simp [keyPred, hne])]
      exact ih (List.pairwise_cons.mp hnd).2 hmem

lemma eq_of_keyNodup_mem {l : List RewardRecord} {r s : RewardRecord}
    (hnd : KeyNodup l) (hr : r ∈ l) (hs : s ∈ l)
    (hk : recKey s = recKey r) : s = r := by
  have h1 := find?_keyPred_of_keyNodup hnd hr
  have h2 := find?_keyPred_of_keyNodup hnd hs
  rw [keyPred_eq_of_key_eq hk, h1] at h2
  have hh : r = s := by injection h2
  exact hh.symm

lemma nodup_of_keyNodup {l : List RewardRecord} (h : KeyNodup l) :
    l.Nodup :=
  h.imp (fun hne heq => hne (by rw [heq]))

lemma keyNodup_of_perm {l₁ l₂ : List RewardRecord} (p : l₁.Perm l₂) :
    KeyNodup l₁ ↔ KeyNodup l₂ :=
  p.pairwise_iff (fun h => fun heq => h heq.symm)

lemma sortRecords_perm (l : List RewardRecord) : (sortRecords l).Perm l :=
  List.perm_insertionSort _ l

lemma dedupKeysGo_eq_self :
    ∀ (l : List RewardRecord) (seen : List (ℤ × ℤ × String × ℤ)),
      KeyNodup l → (∀ r ∈ l, recKey r ∉ seen) → dedupKeysGo seen l = l := by
  intro l
  induction l with
  | nil => intro seen _ _; simp [dedupKeysGo]
  | cons x xs ih =>
    intro seen hnd hseen
    rw [show dedupKeysGo seen (x :: xs) =
        if recKey x ∈ seen then dedupKeysGo seen xs
        else x :: dedupKeysGo (recKey x :: seen) xs from rfl,
      if_neg (hseen x (by simp))]
    congr 1
    refine ih _ (List.pairwise_cons.mp hnd).2 ?_
    intro r hr
    simp only [List.mem_cons, not_or]
    exact ⟨fun h => (List.pairwise_cons.mp hnd).1 r hr h.symm,
           hseen r (List.mem_cons_of_mem _ hr)⟩

lemma dedupByKey_eq_self {l : List RewardRecord} (h : KeyNodup l) :
    dedupByKey l = l :=
  dedupKeysGo_eq_self l [] h (by simp)

lemma dedupKeysGo_append {l₂ : List RewardRecord} :
    ∀ (l₁ : List RewardRecord) (seen : List (ℤ × ℤ × String × ℤ)),
      KeyNodup l₁ → (∀ r ∈ l₁, recKey r ∉ seen) →
      dedupKeysGo seen (l₁ ++ l₂) =
        l₁ ++ dedupKeysGo ((l₁.map recKey).reverse ++ seen) l₂ := by
  intro l₁
  induction l₁ with
  | nil => intro seen _ _; simp
  | cons x xs ih =>
    intro seen hnd hseen
    rw [List.cons_append,
      show dedupKeysGo seen (x :: (xs ++ l₂)) =
        if recKey x ∈ seen then dedupKeysGo seen (xs ++ l₂)
        else x :: dedupKeysGo (recKey x :: seen) (xs ++ l₂) from rfl,
      if_neg (hseen x (by simp)),
      ih (recKey x :: seen) (List.pairwise_cons.mp hnd).2 ?side]
    case side =>
      intro r hr
      simp only [List.mem_cons, not_or]
      exact ⟨fun h => (List.pairwise_cons.mp hnd).1 r hr h.symm,
             hseen r (List.mem_cons_of_mem _ hr)⟩
    simp

/-! ## Helper lemmas on `saveRewards` -/

lemma saveRewards_empty_events (ledger : Option (List RewardRecord)) (E : ℤ) :
    saveRewards ledger [] [] E = ledger := by
  simp [saveRewards]

lemma saveRewards_some_of_ne_nil {w p : List RewardRecord}
    (existing : List RewardRecord) (E : ℤ) (h : w ++ p ≠ []) :
    saveRewards (some existing) w p E =
      some (sortRecords (dedupByKey
        (existing.filter (fun r => decide (r.epoch ≠ E)) ++ (w ++ p)))) := by
  simp [saveRewards, h]

lemma saveRewards_none_of_ne_nil {w p : List RewardRecord} (E : ℤ)
    (h : w ++ p ≠ []) : saveRewards none w p E = some (w ++ p) := by
  simp [saveRewards, h]

lemma keyNodup_saveRewards_some {existing w p res : List RewardRecord} {E : ℤ}
    (hnd : KeyNodup existing)
    (hs : saveRewards (some existing) w p E = some res) : KeyNodup res := by
  by_cases h : w ++ p = []
  · simp [saveRewards, h] at hs
    exact hs ▸ hnd
  · rw [saveRewards_some_of_ne_nil existing E h] at hs
    injection hs with hs
    rw [← hs]
    exact (keyNodup_of_perm (sortRecords_perm _)).mpr (keyNodup_dedupByKey _)

lemma filter_saveRewards_perm {existing w p res : List RewardRecord} {E : ℤ}
    (hnd : KeyNodup existing) (hev : ∀ r ∈ w ++ p, r.epoch = E)
    (hs : saveRewards (some existing) w p E = some res) :
    (res.filter (fun r => decide (r.epoch ≠ E))).Perm
      (existing.filter (fun r => decide (r.epoch ≠ E))) := by
  by_cases h : w ++ p = []
  · simp [saveRewards, h] at hs
    rw [← hs]
  · rw [saveRewards_some_of_ne_nil existing E h] at hs
    injection hs with hs
    subst hs
    set pred : RewardRecord → Bool := fun r => decide (r.epoch ≠ E) with hpred
    set S : List RewardRecord := existing.filter pred with hS
    have hSnd : KeyNodup S := hnd.filter pred
    have hsplit : dedupByKey (S ++ (w ++ p)) =
        S ++ dedupKeysGo ((S.map recKey).reverse ++ []) (w ++ p) :=
      dedupKeysGo_append S [] hSnd (by simp)
    have hstep1 : ((sortRecords (dedupByKey (S ++ (w ++ p)))).filter pred).Perm
        ((dedupByKey (S ++ (w ++ p))).filter pred) :=
      (sortRecords_perm _).filter pred
    refine hstep1.trans ?_
    rw [hsplit, List.filter_append]
    have hfS : S.filter pred = S := by
      rw [hS, List.filter_filter]
      simp
    have hfrest :
        (dedupKeysGo ((S.map recKey).reverse ++ []) (w ++ p)).filter pred =
          [] := by
      rw [List.filter_eq_nil_iff]
      intro a ha
      have hmem := (mem_dedupKeysGo _ _).mp ha
      have haev : a ∈ w ++ p := List.mem_of_find?_eq_some hmem.2
      simp [hpred, hev a haev]
    rw [hfS, hfrest, List.append_nil]

lemma keyNodup_l1_of_sort_dedup {l : List RewardRecord} :
    KeyNodup (sortRecords (dedupByKey l)) :=
  (keyNodup_of_perm (sortRecords_perm _)).mpr (keyNodup_dedupByKey _)

lemma saveRewards_idem (existing w p : List RewardRecord) (E : ℤ) :
    ∃ l1 l2, saveRewards (some existing) w p E = some l1 ∧
      saveRewards (some l1) w p E = some l2 ∧ l2.Perm l1 := by
  by_cases h : w ++ p = []
  · refine ⟨existing, existing, ?_, ?_, List.Perm.refl _⟩ <;>
      simp [saveRewards, h]
  · set pred : RewardRecord → Bool := fun r => decide (r.epoch ≠ E) with hpred
    set ev : List RewardRecord := w ++ p with hev
    set S : List RewardRecord := existing.filter pred with hS
    set D1 : List RewardRecord := dedupByKey (S ++ ev) with hD1
    set l1 : List RewardRecord := sortRecords D1 with hl1
    have hl1nd : KeyNodup l1 :=
      (keyNodup_of_perm (sortRecords_perm _)).mpr (keyNodup_dedupByKey _)
    set S2 : List RewardRecord := l1.filter pred with hS2
    set D2 : List RewardRecord := dedupByKey (S2 ++ ev) with hD2
    have hS2nd : KeyNodup S2 := hl1nd.filter pred
    have hfind : ∀ r : RewardRecord,
        (S2 ++ ev).find? (keyPred r) = (S ++ ev).find? (keyPred r) := by
      intro r
      conv_lhs => rw [List.find?_append]
      conv_rhs => rw [List.find?_append]
      cases hSf : S.find? (keyPred r) with
      | some s =>
        have hkey : recKey s = recKey r := by
          have hps := List.find?_some hSf
          simpa [keyPred] using hps
        have hsS : s ∈ S := List.mem_of_find?_eq_some hSf
        have hsD1 : s ∈ D1 := by
          rw [hD1, mem_dedupByKey, keyPred_eq_of_key_eq hkey]
          conv_lhs => rw [List.find?_append]
          rw [hSf]
          rfl
        have hsl1 : s ∈ l1 := (sortRecords_perm D1).mem_iff.mpr hsD1
        have hpreds : pred s = true := (List.mem_filter.mp hsS).2
        have hsS2 : s ∈ S2 := List.mem_filter.mpr ⟨hsl1, hpreds⟩
        have hS2f : S2.find? (keyPred r) = some s := by
          have hres := find?_keyPred_of_keyNodup hS2nd hsS2
          rwa [keyPred_eq_of_key_eq hkey] at hres
        rw [hS2f]
      | none =>
        cases hS2f : S2.find? (keyPred r) with
        | none => rfl
        | some s =>
          have hkey : recKey s = recKey r := by
            have hps := List.find?_some hS2f
            simpa [keyPred] using hps
          have hsS2 : s ∈ S2 := List.mem_of_find?_eq_some hS2f
          have hsl1 : s ∈ l1 := (List.mem_filter.mp hsS2).1
          have hsD1 : s ∈ D1 := (sortRecords_perm D1).mem_iff.mp hsl1
          have hD1f := mem_dedupByKey.mp hsD1
          rw [keyPred_eq_of_key_eq hkey] at hD1f
          conv at hD1f => rw [List.find?_append]
          rw [hSf] at hD1f
          simp only [Option.none_or] at hD1f
          rw [hD1f]
          rfl
    have hmemiff : ∀ r : RewardRecord, r ∈ D2 ↔ r ∈ D1 := by
      intro r
      rw [hD2, hD1, mem_dedupByKey, mem_dedupByKey, hfind r]
    have hperm : D2.Perm D1 :=
      (List.perm_ext_iff_of_nodup
        (nodup_of_keyNodup (keyNodup_dedupByKey _))
        (nodup_of_keyNodup (keyNodup_dedupByKey _))).mpr hmemiff
    refine ⟨l1, sortRecords D2, ?_, ?_, ?_⟩
    · exact saveRewards_some_of_ne_nil existing E h
    · exact saveRewards_some_of_ne_nil l1 E h
    · exact (sortRecords_perm D2).trans (hperm.trans (sortRecords_perm D1).symm)

lemma saveRewards_keeps_other_epoch {existing w p res : List RewardRecord}
    {E : ℤ} {r : RewardRecord} (hnd : KeyNodup existing) (hr : r ∈ existing)
    (hre : r.epoch ≠ E) (hs : saveRewards (some existing) w p E = some res) :
    r ∈ res ∧ ∀ s ∈ res, recKey s = recKey r → s = r := by
  have hresnd : KeyNodup res := keyNodup_saveRewards_some hnd hs
  by_cases h : w ++ p = []
  · simp [saveRewards, h] at hs
    subst hs
    exact ⟨hr, fun s hsmem hk => eq_of_keyNodup_mem hnd hr hsmem hk⟩
  · rw [saveRewards_some_of_ne_nil existing E h] at hs
    injection hs with hs
    subst hs
    set pred : RewardRecord → Bool := fun x => decide (x.epoch ≠ E) with hpred
    set S : List RewardRecord := existing.filter pred with hS
    have hSnd : KeyNodup S := hnd.filter pred
    have hrS : r ∈ S := List.mem_filter.mpr ⟨hr, by simp [hpred, hre]⟩
    have hfind : (S ++ (w ++ p)).find? (keyPred r) = some r := by
      conv_lhs => rw [List.find?_append]
      rw [find?_keyPred_of_keyNodup hSnd hrS]
      rfl
    have hrD : r ∈ dedupByKey (S ++ (w ++ p)) := mem_dedupByKey.mpr hfind
    have hrres : r ∈ sortRecords (dedupByKey (S ++ (w ++ p))) :=
      (sortRecords_perm _).mem_iff.mpr hrD
    exact ⟨hrres, fun s hsmem hk => by
      refine eq_of_keyNodup_mem ?_ hrres hsmem hk
      exact hresnd⟩

/-! ## Further helper lemmas -/

instance keyNodupDecidable (l : List RewardRecord) : Decidable (KeyNodup l) :=
  inferInstanceAs (Decidable (l.Pairwise _))

lemma collectRewards_eq_chunks (ledger : Option (List RewardRecord)) (E : ℤ)
    (results : List ChunkOutcome) :
    collectRewards ledger E results =
      (saveRewards ledger (chunksWithdrawals results) (chunksProposals results) E,
       (chunksWithdrawals results).length, (chunksProposals results).length) := by
  have aux : ∀ (rs : List ChunkOutcome) (acc : List RewardRecord × List RewardRecord),
      rs.foldl
        (fun acc res =>
          (acc.1 ++ chunkWithdrawals res, acc.2 ++ chunkProposals res)) acc =
      (acc.1 ++ chunksWithdrawals rs, acc.2 ++ chunksProposals rs) := by
    intro rs
    induction rs with
    | nil => intro acc; simp [chunksWithdrawals, chunksProposals]
    | cons c cs ih =>
      intro acc
      simp only [List.foldl_cons, ih, chunksWithdrawals, chunksProposals,
        List.foldr_cons, List.append_assoc]
  rw [collectRewards, aux]
  simp

lemma chunksWithdrawals_append (l₁ l₂ : List ChunkOutcome) :
    chunksWithdrawals (l₁ ++ l₂) =
      chunksWithdrawals l₁ ++ chunksWithdrawals l₂ := by
  simp [chunksWithdrawals, List.foldr_append]
  induction l₁ with
  | nil => simp [chunksWithdrawals]
  | cons c cs ih => simp [chunksWithdrawals, List.foldr_cons, ih, List.append_assoc]

lemma chunksProposals_append (l₁ l₂ : List ChunkOutcome) :
    chunksProposals (l₁ ++ l₂) =
      chunksProposals l₁ ++ chunksProposals l₂ := by
  simp [chunksProposals, List.foldr_append]
  induction l₁ with
  | nil => simp [chunksProposals]
  | cons c cs ih => simp [chunksProposals, List.foldr_cons, ih, List.append_assoc]

lemma loadValidators_characterization (rows : List (List String)) :
    loadValidators rows = ((rows.drop 1).filter goodRow).map rowToValidator := by
  unfold loadValidators
  generalize rows.drop 1 = l
  induction l with
  | nil => rfl
  | cons row rest ih =>
    rw [List.filterMap_cons, List.filter_cons]
    by_cases hc : 4 ≤ row.length ∧ pyStrip (row.headD "") ≠ ""
    · have hg : goodRow row = true := by
        rw [goodRow, decide_eq_true_eq]
        exact hc
      rw [if_pos hc, hg, if_pos rfl, List.map_cons]
      exact congrArg _ ih
    · have hg : goodRow row = false := by
        rw [goodRow, decide_eq_false_iff_not]
        exact hc
      rw [if_neg hc, hg]
      simpa using ih

lemma routeWithdrawals_exits_eq (rows : List RewardRecord) :
    (routeWithdrawals true rows).2 =
      (rows.filter
        (fun r => r.is_exit && decide (exitThresholdGwei ≤ r.amount))).map
        (fun r => { toAggRecord r with amount := min r.amount principalCapGwei }) := by
  induction rows with
  | nil => rfl
  | cons row rest ih =>
    simp only [routeWithdrawals, isExitSelected, if_true, List.filter_cons]
    by_cases hs : (row.is_exit && decide (exitThresholdGwei ≤ row.amount)) = true
    · rw [if_pos hs, if_pos hs]
      by_cases hx : 0 < row.amount - principalCapGwei
      · simp only [if_pos hx, List.map_cons]
        exact congrArg _ ih
      · simp only [if_neg hx, List.map_cons]
        exact congrArg _ ih
    · rw [if_neg hs, if_neg hs]
      exact ih

lemma routeWithdrawals_withdrawals_eq (rows : List RewardRecord) :
    (routeWithdrawals true rows).1 =
      rows.foldr
        (fun r acc =>
          (if r.is_exit && decide (exitThresholdGwei ≤ r.amount) then
            (if 0 < r.amount - principalCapGwei then
              [{ toAggRecord r with amount := r.amount - principalCapGwei }]
             else [])
           else [toAggRecord r]) ++ acc) [] := by
  induction rows with
  | nil => rfl
  | cons row rest ih =>
    simp only [routeWithdrawals, isExitSelected, if_true, List.foldr_cons]
    by_cases hs : (row.is_exit && decide (exitThresholdGwei ≤ row.amount)) = true
    · rw [if_pos hs, if_pos hs]
      by_cases hx : 0 < row.amount - principalCapGwei
      · simp only [if_pos hx, List.cons_append, List.nil_append]
        exact congrArg _ ih
      · simp only [if_neg hx, List.nil_append]
        exact ih
    · rw [if_neg hs, if_neg hs]
      simp only [List.cons_append, List.nil_append]
      exact congrArg _ ih

/-! ## Claim theorems -/

/-- C1 (amended): after any `save_rewards` merge into an existing ledger file
the ledger holds at most one record per `(epoch, validator_index, record_type,
amount)` key; on the very first write (no file) the events are persisted
without deduplication, so key-uniqueness then holds exactly when the new
events are themselves key-distinct; and merging events that all carry the
merged epoch into a key-distinct ledger leaves the records of every other
epoch unchanged (same records, up to the re-sort). -/
theorem merge_key_unique_and_preserves_other_epochs :
    (∀ (existing w p : List RewardRecord) (E : ℤ) (res : List RewardRecord),
      KeyNodup existing → saveRewards (some existing) w p E = some res →
      KeyNodup res)
    ∧ (∀ (w p : List RewardRecord) (E : ℤ) (res : List RewardRecord),
      KeyNodup (w ++ p) → saveRewards none w p E = some res → KeyNodup res)
    ∧ (∀ (existing w p : List RewardRecord) (E : ℤ) (res : List RewardRecord),
      KeyNodup existing → (∀ r ∈ w ++ p, r.epoch = E) →
      saveRewards (some existing) w p E = some res →
      (res.filter (fun r => decide (r.epoch ≠ E))).Perm
        (existing.filter (fun r => decide (r.epoch ≠ E)))) := by
  refine ⟨fun existing w p E res hnd hs => keyNodup_saveRewards_some hnd hs,
    ?_,
    fun existing w p E res hnd hev hs => filter_saveRewards_perm hnd hev hs⟩
  intro w p E res hnd hs
  by_cases h : w ++ p = []
  · simp [saveRewards, h] at hs
  · rw [saveRewards_none_of_ne_nil E h] at hs
    injection hs with hs
    rw [← hs]
    exact hnd

/-- C1 witness: the three amended conclusions at concrete inputs (epoch-100
record preserved while epoch 150 is merged; key-distinct first write). -/
theorem merge_key_unique_witness :
    KeyNodup [sampleRecord "withdrawal" 2 20 100 false,
              sampleRecord "withdrawal" 1 10 150 false]
    ∧ KeyNodup [sampleRecord "withdrawal" 1 10 150 false]
    ∧ (([sampleRecord "withdrawal" 2 20 100 false,
         sampleRecord "withdrawal" 1 10 150 false].filter
          (fun r => decide (r.epoch ≠ 150))).Perm
        ([sampleRecord "withdrawal" 2 20 100 false].filter
          (fun r => decide (r.epoch ≠ 150)))) :=
  ⟨merge_key_unique_and_preserves_other_epochs.1
      [sampleRecord "withdrawal" 2 20 100 false]
      [sampleRecord "withdrawal" 1 10 150 false] [] 150
      [sampleRecord "withdrawal" 2 20 100 false,
       sampleRecord "withdrawal" 1 10 150 false] (by decide) (by decide),
   merge_key_unique_and_preserves_other_epochs.2.1
      [sampleRecord "withdrawal" 1 10 150 false] [] 150
      [sampleRecord "withdrawal" 1 10 150 false] (by decide) (by decide),
   merge_key_unique_and_preserves_other_epochs.2.2
      [sampleRecord "withdrawal" 2 20 100 false]
      [sampleRecord "withdrawal" 1 10 150 false] [] 150
      [sampleRecord "withdrawal" 2 20 100 false,
       sampleRecord "withdrawal" 1 10 150 false]
      (by decide) (by decide) (by decide)⟩

/-- C1 counterexample: on the very first write (no ledger file) the events are
persisted as-is, so a duplicated event yields a ledger with two records of the
same key, refuting the claim's "at most one record per key ... also for the
very first write". -/
theorem first_write_duplicate_keys_persisted :
    saveRewards none
      [sampleRecord "withdrawal" 3 30 7 false,
       sampleRecord "withdrawal" 3 30 7 false] [] 7 =
      some [sampleRecord "withdrawal" 3 30 7 false,
            sampleRecord "withdrawal" 3 30 7 false]
    ∧ ¬ KeyNodup [sampleRecord "withdrawal" 3 30 7 false,
                  sampleRecord "withdrawal" 3 30 7 false] := by
  decide

/-- C2 (amended): re-invoking `save_rewards` for the same epoch on a ledger
whose file already exists yields the same records (a permutation, i.e. the
same content up to the re-sort); and merging an empty event list writes
nothing, so any number of such calls leaves any ledger unchanged.  On the very
first write the snapshot is not deduplicated, so idempotence can fail there
(see the counterexample). -/
theorem merge_idempotent_on_existing_ledger :
    (∀ (existing w p : List RewardRecord) (E : ℤ),
      ∃ l1 l2, saveRewards (some existing) w p E = some l1 ∧
        saveRewards (some l1) w p E = some l2 ∧ l2.Perm l1)
    ∧ (∀ (ledger : Option (List RewardRecord)) (E : ℤ),
      saveRewards ledger [] [] E = ledger) :=
  ⟨saveRewards_idem, saveRewards_empty_events⟩

/-- C2 counterexample: with no ledger file, merging a duplicated event list
once persists both copies, while merging it twice leaves a single record —
the two outcomes are not even permutations of each other, refuting
idempotence "for every ledger state". -/
theorem first_write_merge_not_idempotent :
    saveRewards none
      [sampleRecord "withdrawal" 4 40 5 false,
       sampleRecord "withdrawal" 4 40 5 false] [] 5 =
      some [sampleRecord "withdrawal" 4 40 5 false,
            sampleRecord "withdrawal" 4 40 5 false]
    ∧ saveRewards
        (some [sampleRecord "withdrawal" 4 40 5 false,
               sampleRecord "withdrawal" 4 40 5 false])
        [sampleRecord "withdrawal" 4 40 5 false,
         sampleRecord "withdrawal" 4 40 5 false] [] 5 =
        some [sampleRecord "withdrawal" 4 40 5 false]
    ∧ ¬ ([sampleRecord "withdrawal" 4 40 5 false].Perm
          [sampleRecord "withdrawal" 4 40 5 false,
           sampleRecord "withdrawal" 4 40 5 false]) := by
  decide

/-- C3 (amended): `adjust_reward` leaves the amount unchanged, raising
nothing, whenever the bond type parse raises `ValueError` or `TypeError`
(unparsable string, `None` in the `reward_utils` variant) or parses to an
integer outside `[8,15) ∪ [16,17)`; on the LEB branches it returns the
IEEE-754 double computation `int(bonded + borrowed * 0.14)` (resp. `0.15`),
which truncates toward zero rather than flooring and can deviate from the
claim's exact floor formula (counterexample at `amount = -10`); the bond type
parse models the full CPython float literal grammar, so decimal and exponent
strings land in the right branch (`"10.5"` parses to 10, LEB8); at the spec's
concrete inputs the branches agree with the claim:
`adjust_reward(1000, 10) = 355`, `adjust_reward(1000, 16) = 575`,
`adjust_reward(1000, 32) = 1000`. -/
theorem adjust_reward_branches_and_values :
    (∀ (a : ℤ) (b : PyBond),
      pyParseBond b = .error .valueError ∨ pyParseBond b = .error .typeError →
      adjustRewardUtils a b = .ok a)
    ∧ (∀ (a t : ℤ) (b : PyBond), pyParseBond b = .ok t →
        ¬(8 ≤ t ∧ t < 15) → ¬(16 ≤ t ∧ t < 17) →
        adjustRewardUtils a b = .ok a)
    ∧ adjustRewardUtils 1000 (.int 10) = .ok 355
    ∧ adjustRewardUtils 1000 (.int 16) = .ok 575
    ∧ adjustRewardUtils 1000 (.int 32) = .ok 1000
    ∧ adjustRewardUtils 1000 (.str "10.5") = .ok 355
    ∧ adjustRewardUtils 1000 (.str "16.0") = .ok 575 := by
  refine ⟨?_, ?_, by decide, by decide, by decide, by decide, by decide⟩
  · intro a b h
    rcases h with h | h <;> simp [adjustRewardUtils, h]
  · intro a t b hparse h1 h2
    simp [adjustRewardUtils, hparse, adjustParsed, h1, h2]

/-- C3 witness: the amended fall-through conclusions at concrete inputs (a
non-numeric string, and a standard 32-ETH bond type). -/
theorem adjust_reward_branches_witness :
    adjustRewardUtils 42 (.str "abc") = .ok 42
    ∧ adjustRewardUtils 1000 (.int 32) = .ok 1000 :=
  ⟨adjust_reward_branches_and_values.1 42 (.str "abc") (Or.inl (by decide)),
   adjust_reward_branches_and_values.2.1 1000 32 (.int 32) (by decide)
     (by decide) (by decide)⟩

/-- C3 counterexample: at `amount = -10`, `bond_type = 10` the code returns
`-3` (Python `int()` truncates the double `-3.98` toward zero) while the
claim's floor formula yields `-4`; and the `invoice.py` variant catches only
`ValueError`, so `bond_type = None` raises `TypeError` instead of returning
the amount unchanged. -/
theorem adjust_reward_formula_counterexample :
    adjustRewardUtils (-10) (.int 10) = .ok (-3)
    ∧ adjustRewardClaimFormula (-10) 10 = -4
    ∧ ((-3 : ℤ) ≠ -4)
    ∧ adjustRewardInvoice 1000 .noneV = .error .typeError := by
  decide

/-- C4: over any epoch range (with the `is_exit` column present), a withdrawal
row is routed to the exits list iff `is_exit` is true and the amount is at
least 8 ETH in gwei, each selected row contributing exactly one exit record
capped at 32 ETH (`min amount cap`, later fed to `get_bonded_principal`, not
`adjust_reward`); a selected row above 32 ETH additionally contributes exactly
one excess withdrawal record of `amount - 32 ETH`, and an unselected row
passes whole into the withdrawals list (which `aggregate_data` feeds through
`adjust_reward`). -/
theorem fetch_data_exit_selection_and_split :
    ∀ (ledger : List RewardRecord) (fromBlock toBlock : ℤ),
      (fetchData ledger fromBlock toBlock true).2.2 =
        ((withdrawalRows ledger fromBlock toBlock).filter
          (fun r => r.is_exit && decide (exitThresholdGwei ≤ r.amount))).map
          (fun r => { toAggRecord r with amount := min r.amount principalCapGwei })
      ∧ (fetchData ledger fromBlock toBlock true).2.1 =
        (withdrawalRows ledger fromBlock toBlock).foldr
          (fun r acc =>
            (if r.is_exit && decide (exitThresholdGwei ≤ r.amount) then
              (if 0 < r.amount - principalCapGwei then
                [{ toAggRecord r with amount := r.amount - principalCapGwei }]
               else [])
             else [toAggRecord r]) ++ acc) [] := by
  intro ledger fromBlock toBlock
  exact ⟨routeWithdrawals_exits_eq _, routeWithdrawals_withdrawals_eq _⟩

/-- C5 (spec-modelled): `get_bonded_principal` is a pure function of
`(amount, bond_type)` returning `amount // 4` on `[8,15)`, `amount // 2` on
`[16,17)` and the amount unchanged otherwise (including any parse failure);
the parse models the full CPython float literal grammar, so a decimal bond
type such as `"8.0"` parses to 8 and takes the quarter branch;
`get_bonded_principal(32_000_000_000, 10) = 8_000_000_000`; and
`aggregate_data` applies it to every exit record. -/
theorem bonded_principal_spec :
    (∀ (a t : ℤ) (b : PyBond), pyParseBond b = .ok t → 8 ≤ t → t < 15 →
      get_bonded_principal a b = Int.fdiv a 4)
    ∧ (∀ (a t : ℤ) (b : PyBond), pyParseBond b = .ok t → 16 ≤ t → t < 17 →
      get_bonded_principal a b = Int.fdiv a 2)
    ∧ (∀ (a t : ℤ) (b : PyBond), pyParseBond b = .ok t →
        ¬(8 ≤ t ∧ t < 15) → ¬(16 ≤ t ∧ t < 17) → get_bonded_principal a b = a)
    ∧ (∀ (a : ℤ) (b : PyBond) (e : PyErr), pyParseBond b = .error e →
        get_bonded_principal a b = a)
    ∧ get_bonded_principal 32000000000 (.int 10) = 8000000000
    ∧ get_bonded_principal 32000000000 (.str "8.0") = 8000000000
    ∧ (∀ exits : List AggRecord, aggregateExitAmounts exits =
        exits.map (fun r => get_bonded_principal r.amount (.str r.vtype))) := by
  refine ⟨?_, ?_, ?_, ?_, by decide, by decide, fun exits => rfl⟩
  · intro a t b hparse h1 h2
    simp [get_bonded_principal, hparse, h1, h2]
  · intro a t b hparse h1 h2
    have hn : ¬(8 ≤ t ∧ t < 15) := by omega
    simp [get_bonded_principal, hparse, hn, h1, h2]
  · intro a t b hparse h1 h2
    simp [get_bonded_principal, hparse, h1, h2]
  · intro a b e hparse
    simp [get_bonded_principal, hparse]

/-- C5 witness: the branch conclusions at concrete inputs. -/
theorem bonded_principal_spec_witness :
    get_bonded_principal 32000000000 (.int 10) = Int.fdiv 32000000000 4
    ∧ get_bonded_principal 100 (.int 16) = Int.fdiv 100 2
    ∧ get_bonded_principal 100 (.int 32) = 100
    ∧ get_bonded_principal 100 .noneV = 100 :=
  ⟨bonded_principal_spec.1 32000000000 10 (.int 10) (by decide) (by decide)
      (by decide),
   bonded_principal_spec.2.1 100 16 (.int 16) (by decide) (by decide)
      (by decide),
   bonded_principal_spec.2.2.1 100 32 (.int 32) (by decide) (by decide)
      (by decide),
   bonded_principal_spec.2.2.2.1 100 .noneV .typeError (by decide)⟩

/-- C6: every record produced by `process_withdrawals` has `is_exit = true`
iff the status looked up for the validator's index (with `''` as the absent
default) is one of the four exited statuses; a validator absent from the map
is therefore classified not-exited; a transport failure of the batch status
query yields an empty map instead of raising; and with that empty map every
withdrawal of the batch gets `is_exit = false`. -/
theorem exit_flag_classification :
    (∀ (validators : List ValidatorRow) (E : ℤ) (data : List WithdrawalItem)
        (ts : Option ℤ) (statuses : List (String × String)) (r : RewardRecord),
      r ∈ processWithdrawals validators E data ts statuses →
      (r.is_exit = true ↔
        lookupStatus statuses (toString r.validator_index) ∈ exitedStatuses))
    ∧ (∀ (validators : List ValidatorRow) (E : ℤ) (data : List WithdrawalItem)
        (ts : Option ℤ) (statuses : List (String × String)) (r : RewardRecord),
      r ∈ processWithdrawals validators E data ts statuses →
      statusLookup? statuses (toString r.validator_index) = none →
      r.is_exit = false)
    ∧ (∀ (indices : List String) (err : Unit),
      getValidatorStatuses indices (.error err) = [])
    ∧ (∀ (validators : List ValidatorRow) (E : ℤ) (data : List WithdrawalItem)
        (ts : Option ℤ) (indices : List String) (err : Unit)
        (r : RewardRecord),
      r ∈ processWithdrawals validators E data ts
        (getValidatorStatuses indices (.error err)) →
      r.is_exit = false) := by
  have hmap : ∀ (indices : List String) (err : Unit),
      getValidatorStatuses indices (.error err) = [] := by
    intro indices err
    cases h : indices.isEmpty <;> simp [getValidatorStatuses, h]
  have hclass : ∀ (validators : List ValidatorRow) (E : ℤ)
      (data : List WithdrawalItem) (ts : Option ℤ)
      (statuses : List (String × String)) (r : RewardRecord),
      r ∈ processWithdrawals validators E data ts statuses →
      (r.is_exit = true ↔
        lookupStatus statuses (toString r.validator_index) ∈ exitedStatuses) := by
    intro validators E data ts statuses r hr
    obtain ⟨w, hw, rfl⟩ := List.mem_map.mp hr
    simp only [isValidatorExited]
    simp
  refine ⟨hclass, ?_, hmap, ?_⟩
  · intro validators E data ts statuses r hr hnone
    have hfind : statuses.find? (fun kv => kv.1 == toString r.validator_index) =
        none := by
      rcases hopt : statuses.find?
          (fun kv => kv.1 == toString r.validator_index) with _ | kv
      · exact hopt
      · rw [statusLookup?, hopt] at hnone
        simp at hnone
    have hlu : lookupStatus statuses (toString r.validator_index) = "" := by
      rw [lookupStatus, hfind]
    have hiff := hclass validators E data ts statuses r hr
    rw [hlu] at hiff
    rcases hex : r.is_exit with _ | _
    · rfl
    · exact absurd (hiff.mp hex) (by decide)
  · intro validators E data ts indices err r hr
    rw [hmap indices err] at hr
    have hiff := hclass validators E data ts [] r hr
    rcases hex : r.is_exit with _ | _
    · rfl
    · have hmem := hiff.mp hex
      rw [show lookupStatus [] (toString r.validator_index) = "" from rfl]
        at hmem
      exact absurd hmem (by decide)

/-- C6 witness: a withdrawal for validator 7 with status map entry
`exited_unslashed` is flagged as exit (first conjunct), and under a failed
batch query the same withdrawal is flagged not-exited (fourth conjunct). -/
theorem exit_flag_classification_witness :
    ((sampleRecord "withdrawal" 7 9000000000 5 true).is_exit = true ↔
      lookupStatus [("7", "exited_unslashed")]
        (toString (sampleRecord "withdrawal" 7 9000000000 5 true).validator_index)
        ∈ exitedStatuses)
    ∧ getValidatorStatuses ["7"] (.error ()) = []
    ∧ (sampleRecord "withdrawal" 7 9000000000 5 false).is_exit = false :=
  ⟨exit_flag_classification.1 [] 5 [⟨7, 9000000000, 5⟩] none
      [("7", "exited_unslashed")]
      (sampleRecord "withdrawal" 7 9000000000 5 true) (by decide),
   exit_flag_classification.2.2.1 ["7"] (),
   exit_flag_classification.2.2.2 [] 5 [⟨7, 9000000000, 5⟩] none ["7"] ()
      (sampleRecord "withdrawal" 7 9000000000 5 false) (by decide)⟩

/-- C7: `get_withdrawals` issues its request with the epoch query parameter
`epoch + 99`, covering the remote 100-epoch window `[epoch, epoch+99]`; a
query for epoch 200 is issued with `epoch = 299`. -/
theorem withdrawals_query_epoch_offset :
    (∀ (idxs : List String) (e : ℤ),
      (getWithdrawalsRequest idxs e).epochParam = e + 99)
    ∧ (getWithdrawalsRequest ["1"] 200).epochParam = 299 :=
  ⟨fun _ _ => rfl, by decide⟩

/-- C8 (amended): an exception raised inside a chunk's loop body is caught
within `collect_rewards` and the cycle proceeds: a chunk failing before its
withdrawals are accumulated (status query, withdrawal fetch/processing)
behaves exactly like an absent chunk, while a chunk failing at the proposal
step has already contributed its withdrawals and behaves exactly like a
successful chunk with no proposals — in both cases the epoch is still saved
and the loop advances; only an exception escaping `collect_rewards` reaches
the backfill loop, which leaves `next_epoch` unchanged and retries the same
epoch after the fixed delay, while a successful collection advances it by
the epoch interval. -/
theorem chunk_error_handling :
    (∀ (ledger : Option (List RewardRecord)) (E : ℤ)
        (pre post : List ChunkOutcome) (ws : List RewardRecord),
      collectRewards ledger E (pre ++ .failedAfterWithdrawals ws :: post) =
        collectRewards ledger E (pre ++ .ok ws [] :: post))
    ∧ (∀ (ledger : Option (List RewardRecord)) (E : ℤ)
        (pre post : List ChunkOutcome),
      collectRewards ledger E (pre ++ .failedEarly :: post) =
        collectRewards ledger E (pre ++ post))
    ∧ (∀ (next interval current : ℤ) (cnts : ℕ × ℕ),
      ¬(next > current ∧ current > 0) →
      backfillStep next interval current (.ok cnts) =
        .advance (next + interval))
    ∧ (∀ (next interval current : ℤ) (err : Unit),
      ¬(next > current ∧ current > 0) →
      backfillStep next interval current (.error err) = .retry next) := by
  refine ⟨?_, ?_, ?_, ?_⟩
  · intro ledger E pre post ws
    rw [collectRewards_eq_chunks, collectRewards_eq_chunks]
    rw [show pre ++ ChunkOutcome.failedAfterWithdrawals ws :: post =
        pre ++ [ChunkOutcome.failedAfterWithdrawals ws] ++ post by simp,
      show pre ++ ChunkOutcome.ok ws [] :: post =
        pre ++ [ChunkOutcome.ok ws []] ++ post by simp]
    simp only [chunksWithdrawals_append, chunksProposals_append]
    rfl
  · intro ledger E pre post
    rw [collectRewards_eq_chunks, collectRewards_eq_chunks]
    rw [show pre ++ ChunkOutcome.failedEarly :: post =
        pre ++ [ChunkOutcome.failedEarly] ++ post by simp]
    simp only [chunksWithdrawals_append, chunksProposals_append]
    simp [chunksWithdrawals, chunksProposals, chunkWithdrawals, chunkProposals]
  · intro next interval current cnts h
    rw [backfillStep, if_neg h]
  · intro next interval current err h
    rw [backfillStep, if_neg h]

/-- C8 witness: the amended conclusions at concrete inputs (a proposal-step
failure equals a success carrying only its withdrawals; an early failure
equals an absent chunk; below the tip the loop advances on success and
retries on failure). -/
theorem chunk_error_handling_witness :
    collectRewards none 5
        [.failedAfterWithdrawals [sampleRecord "withdrawal" 8 88 5 false]] =
      collectRewards none 5 [.ok [sampleRecord "withdrawal" 8 88 5 false] []]
    ∧ collectRewards none 5
        [.failedEarly, .ok [sampleRecord "withdrawal" 9 99 5 false] []] =
      collectRewards none 5 [.ok [sampleRecord "withdrawal" 9 99 5 false] []]
    ∧ backfillStep 5 100 50 (.ok (1, 0)) = .advance 105
    ∧ backfillStep 5 100 50 (.error ()) = .retry 5 :=
  ⟨chunk_error_handling.1 none 5 [] []
      [sampleRecord "withdrawal" 8 88 5 false],
   chunk_error_handling.2.1 none 5 []
      [.ok [sampleRecord "withdrawal" 9 99 5 false] []],
   chunk_error_handling.2.2.1 5 100 50 (1, 0) (by decide),
   chunk_error_handling.2.2.2 5 100 50 () (by decide)⟩

/-- C8 counterexample: neither chunk failure propagates out of
`collect_rewards` — with one chunk failing at the proposal step (its
withdrawals already accumulated) and one failing early, the call completes
normally, saves the epoch including the failed chunk's withdrawals, and the
backfill loop advances past the epoch — refuting "the error propagates to
the outer cycle loop ... never advances past an epoch whose data it failed
to fetch, and no part of an epoch's data is silently dropped". -/
theorem chunk_error_swallowed_counterexample :
    collectRewards none 5
        [.failedAfterWithdrawals [sampleRecord "withdrawal" 8 88 5 false],
         .failedEarly,
         .ok [sampleRecord "withdrawal" 9 99 5 false] []] =
      (some [sampleRecord "withdrawal" 8 88 5 false,
             sampleRecord "withdrawal" 9 99 5 false], 2, 0)
    ∧ backfillStep 5 100 50 (.ok (2, 0)) = .advance 105 := by
  decide

/-- C9 (amended): `load_validators` silently skips every row with fewer than
4 cells and every row whose index cell is empty after stripping, keeping
exactly one record per remaining row; it raises no error for malformed rows
(the source defines no `MalformedInputError`; only file-level errors
propagate). -/
theorem load_validators_skips_malformed :
    ∀ rows : List (List String),
      loadValidators rows = ((rows.drop 1).filter goodRow).map rowToValidator :=
  loadValidators_characterization

/-- C9 counterexample: a table with a short (1-cell) row loads successfully —
the short row is silently dropped and the remaining good row is returned — 
refuting the claimed `MalformedInputError` failure on short rows. -/
theorem load_validators_no_error_counterexample :
    loadValidators
        [["index", "pubkey", "type", "node", "minipool"],
         ["12", "pk", "8", "n1"], ["13"]] =
      [{ index := "12", pubkey := "pk", vtype := "8", node := "n1",
         minipool := "" }] := by
  decide

/-- C10: every record of `process_withdrawals` carries the epoch of the
withdrawal item itself (the map of epochs is the items' epochs), which can
differ from the collection call's epoch argument (concretely, an item of
epoch 250 processed under a call for epoch 200 yields a record of epoch 250);
the per-epoch delete of `save_rewards` removes exactly the stored slice of
the merged epoch; and a record of any other epoch already in a key-distinct
ledger is kept through a re-merge, with exactly one record of its key in the
result — the keep-first deduplication, not the delete, prevents duplication
of the window's other epochs. -/
theorem withdrawal_epoch_provenance :
    (∀ (validators : List ValidatorRow) (E : ℤ) (data : List WithdrawalItem)
        (ts : Option ℤ) (statuses : List (String × String)),
      (processWithdrawals validators E data ts statuses).map
          (fun r => r.epoch) =
        data.map (fun w => w.epoch))
    ∧ ((processWithdrawals [] 200 [⟨7, 5, 250⟩] none []).map
        (fun r => r.epoch) = [250])
    ∧ (∀ (existing w p : List RewardRecord) (E : ℤ), w ++ p ≠ [] →
      saveRewards (some existing) w p E =
        saveRewards
          (some (existing.filter (fun r => decide (r.epoch ≠ E)))) w p E)
    ∧ (∀ (existing w p : List RewardRecord) (E : ℤ)
        (res : List RewardRecord) (r : RewardRecord),
      KeyNodup existing → r ∈ existing → r.epoch ≠ E →
      saveRewards (some existing) w p E = some res →
      r ∈ res ∧ ∀ s ∈ res, recKey s = recKey r → s = r) := by
  refine ⟨?_, by decide, ?_,
    fun existing w p E res r hnd hr hre hs =>
      saveRewards_keeps_other_epoch hnd hr hre hs⟩
  · intro validators E data ts statuses
    rw [processWithdrawals, List.map_map]
    rfl
  · intro existing w p E h
    rw [saveRewards_some_of_ne_nil existing E h,
      saveRewards_some_of_ne_nil _ E h, List.filter_filter]
    simp

/-- C10 witness: the delete-slice equality and the keep-through-re-merge
property at concrete inputs (an epoch-100 record survives a merge of an
epoch-150 event and stays unique in the result). -/
theorem withdrawal_epoch_provenance_witness :
    saveRewards (some [sampleRecord "withdrawal" 2 20 100 false])
        [sampleRecord "withdrawal" 1 10 150 false] [] 150 =
      saveRewards
        (some ([sampleRecord "withdrawal" 2 20 100 false].filter
          (fun r => decide (r.epoch ≠ 150))))
        [sampleRecord "withdrawal" 1 10 150 false] [] 150
    ∧ (sampleRecord "withdrawal" 2 20 100 false ∈
        [sampleRecord "withdrawal" 2 20 100 false,
         sampleRecord "withdrawal" 1 10 150 false]
      ∧ ∀ s ∈ [sampleRecord "withdrawal" 2 20 100 false,
               sampleRecord "withdrawal" 1 10 150 false],
          recKey s = recKey (sampleRecord "withdrawal" 2 20 100 false) →
          s = sampleRecord "withdrawal" 2 20 100 false) :=
  ⟨withdrawal_epoch_provenance.2.2.1
      [sampleRecord "withdrawal" 2 20 100 false]
      [sampleRecord "withdrawal" 1 10 150 false] [] 150 (by decide),
   withdrawal_epoch_provenance.2.2.2
      [sampleRecord "withdrawal" 2 20 100 false]
      [sampleRecord "withdrawal" 1 10 150 false] [] 150
      [sampleRecord "withdrawal" 2 20 100 false,
       sampleRecord "withdrawal" 1 10 150 false]
      (sampleRecord "withdrawal" 2 20 100 false)
      (by decide) (by decide) (by decide) (by decide)⟩
